import Mathlib

/-!
Shallow embedding of the parsing / aggregation core of the
`xponline-auto-systems` repository (`src/utils/csvParser.ts` together with
the earnings computations of `src/App.tsx`), and proofs of the specified
properties.

Modelling conventions:
* JavaScript strings are Lean `String`s; the character-level operations
  (`split`, `trim`, `toUpperCase`, `toLowerCase`, `includes`, `startsWith`)
  are implemented over `String.data`.
* `parseInt(x, 10)` results are `Option Int` and `parseFloat` results are
  `Option ℚ`; `none` models `NaN`.  The arithmetic performed on
  `parseFloat` results (`jsAdd`, `jsSub`, `jsMul`) propagates `NaN`.
* JavaScript objects used as records (`SIZE_MAPPING`, the pivot tables) and
  `Map`s are association lists in insertion order; `Record` key creation
  appends, `Map.set` updates in place.
-/

namespace XpOnline

/-- JavaScript `String.prototype.toUpperCase`, character by character (the size tokens
involved are ASCII). -/
def jsToUpper (s : String) : String := ⟨s.data.map Char.toUpper⟩

/-- JavaScript `String.prototype.toLowerCase`, character by character. -/
def jsToLower (s : String) : String := ⟨s.data.map Char.toLower⟩

/-- JavaScript `String.prototype.trim` on character lists. -/
def trimChars (cs : List Char) : List Char :=
  ((cs.dropWhile Char.isWhitespace).reverse.dropWhile Char.isWhitespace).reverse

/-- JavaScript `String.prototype.trim`. -/
def jsTrim (s : String) : String := ⟨trimChars s.data⟩

/-- JavaScript `String.prototype.startsWith`. -/
def jsStartsWith (pre s : String) : Bool := pre.data.isPrefixOf s.data

/-- JavaScript `String.prototype.includes pat` on character lists. -/
def containsSub (pat : List Char) : List Char → Bool
  | [] => pat.isEmpty
  | c :: rest => pat.isPrefixOf (c :: rest) || containsSub pat rest

/-- First occurrence of the non-empty separator `sep` in `cs`: the characters
strictly before it paired with the characters strictly after it. -/
def findSplit (sep : List Char) : List Char → Option (List Char × List Char)
  | [] => none
  | c :: rest =>
    if !sep.isEmpty && sep.isPrefixOf (c :: rest) then
      some ([], rest.drop (sep.length - 1))
    else
      match findSplit sep rest with
      | none => none
      | some (pre, post) => some (c :: pre, post)

/-- Fuel-driven worker for `jsSplit`; every found separator strictly shortens
the remainder, so `length + 1` fuel always suffices. -/
def splitChars (sep : List Char) : Nat → List Char → List (List Char)
  | 0, cs => [cs]
  | fuel + 1, cs =>
    match findSplit sep cs with
    | none => [cs]
    | some (pre, post) => pre :: splitChars sep fuel post

/-- JavaScript `String.prototype.split sep` for a non-empty separator string. -/
def jsSplit (sep : String) (s : String) : List String :=
  (splitChars sep.data (s.data.length + 1) s.data).map String.mk

/-- Numeric value of a run of decimal digit characters. -/
def digitsVal (ds : List Char) : Nat :=
  ds.foldl (fun acc c => acc * 10 + (c.toNat - '0'.toNat)) 0

/-- JavaScript `parseInt(str, 10)`: skip leading whitespace, optional sign,
then the longest run of decimal digits (trailing garbage ignored); `none`
models `NaN` (no digits at all). -/
def jsParseInt (s : String) : Option Int :=
  let core : List Char → Option Int := fun t =>
    let ds := t.takeWhile Char.isDigit
    if ds.isEmpty then none else some (digitsVal ds)
  match s.data.dropWhile Char.isWhitespace with
  | '-' :: rest => (core rest).map (fun n => -n)
  | '+' :: rest => core rest
  | cs => core cs

/-- Exponent part of a JavaScript float literal (after the `e`/`E`): an
optionally signed digit run; an invalid exponent is simply not consumed. -/
def expDigits (r : List Char) : Int :=
  match r with
  | '-' :: r2 =>
    let ds := r2.takeWhile Char.isDigit
    if ds.isEmpty then 0 else -(digitsVal ds : Int)
  | '+' :: r2 =>
    let ds := r2.takeWhile Char.isDigit
    if ds.isEmpty then 0 else (digitsVal ds : Int)
  | _ =>
    let ds := r.takeWhile Char.isDigit
    if ds.isEmpty then 0 else (digitsVal ds : Int)

/-- JavaScript `parseFloat`: value of the longest numeric prefix (optional
sign, integer digits, optional `.` fraction, optional exponent); `none`
models `NaN` (no numeric prefix at all). -/
def jsParseFloat (s : String) : Option ℚ :=
  let signed : Bool × List Char :=
    match s.data.dropWhile Char.isWhitespace with
    | '-' :: rest => (true, rest)
    | '+' :: rest => (false, rest)
    | cs => (false, cs)
  let body := signed.2
  let ip := body.takeWhile Char.isDigit
  let rest1 := body.dropWhile Char.isDigit
  let fpRest : List Char × List Char :=
    match rest1 with
    | '.' :: r => (r.takeWhile Char.isDigit, r.dropWhile Char.isDigit)
    | _ => ([], rest1)
  let fp := fpRest.1
  if ip.isEmpty && fp.isEmpty then none
  else
    let e : Int :=
      match fpRest.2 with
      | 'e' :: r => expDigits r
      | 'E' :: r => expDigits r
      | _ => 0
    let mag : ℚ := ((digitsVal ip : ℚ) + (digitsVal fp : ℚ) / (10 : ℚ) ^ fp.length) * (10 : ℚ) ^ e
    some (if signed.1 then -mag else mag)

/-- The synonym table `SIZE_MAPPING` of `csvParser.ts`, as the association
list of its (key, canonical size) pairs in declaration order. -/
def SIZE_MAPPING : List (String × String) :=
  [("XS", "XS"), ("XSMALL", "XS"),
   ("S", "SMALL"), ("SMALL", "SMALL"), ("SM", "SMALL"),
   ("M", "MEDIUM"), ("MEDIUM", "MEDIUM"), ("MD", "MEDIUM"),
   ("L", "LARGE"), ("LARGE", "LARGE"), ("LG", "LARGE"),
   ("XL", "XL"), ("XLARGE", "XL"),
   ("2XL", "2XL"), ("XXL", "2XL"), ("2X", "2XL"),
   ("XXXL", "3XL"), ("3XL", "3XL"), ("3X", "3XL")]

/-- The `ORDERED_SIZES` list of `csvParser.ts`. -/
def ORDERED_SIZES : List String := ["XS", "SMALL", "MEDIUM", "LARGE", "XL", "2XL", "3XL"]

/-- The `normalizeSize` function: `null` (here `none`) for the empty string, otherwise the
`SIZE_MAPPING` entry of the upper-cased token, `none` when absent. -/
def normalizeSize (str : String) : Option String :=
  if str = "" then none
  else SIZE_MAPPING.lookup (jsToUpper str)

/-- The `detectColorFamily` helper of `csvParser.ts`. -/
def detectColorFamily (color : String) : String :=
  let lower := jsToLower color
  if containsSub "black".data lower.data then "black"
  else if containsSub "white".data lower.data then "white"
  else if containsSub "brown".data lower.data then "brown"
  else if containsSub "storm".data lower.data then "storm"
  else if containsSub "blue".data lower.data then "blue"
  else color

/-- The fields of a raw orders-file row consumed by the parser. -/
structure CSVRow where
  lineitemQuantity : String
  lineitemName : String
  name : String
  createdAt : String
  total : String
  subtotal : String
deriving Repr, DecidableEq

/-- The `ParsedItem` record of `csvParser.ts`. -/
structure ParsedItem where
  id : String
  productName : String
  color : String
  size : String
  quantity : Int
deriving Repr, DecidableEq

/-- The `Order` record of `csvParser.ts`; `date` carries the raw `Created at` string
handed to `new Date(...)`, and the monetary fields are `parseFloat` results
(`none` = `NaN`). -/
structure Order where
  id : String
  name : String
  date : String
  total : Option ℚ
  subtotal : Option ℚ
  shippingCost : ℚ
  netEarnings : Option ℚ
deriving Repr, DecidableEq

/-- The two-or-one-part suffix analysis of the item-name parser
(`csvParser.ts` lines 109–134): given the already-extracted product name and
the last `" - "` segment, returns `(productName, color, size)`. -/
def parseSuffix (productName suffix : String) : String × String × String :=
  let suffixParts := (jsSplit "/" suffix).map jsTrim
  match suffixParts with
  | [partA, partB] =>
    match normalizeSize partA, normalizeSize partB with
    | some sizeA, _ => (productName, partB, sizeA)
    | none, some sizeB => (productName, partA, sizeB)
    | none, none => (productName, suffix, "Unknown")
  | _ =>
    match normalizeSize suffix with
    | some s => (productName, "Standard", s)
    | none => (productName, suffix, "One Size")

/-- Item-name parsing (`csvParser.ts` lines 100–135): split on `" - "`; with
at least two segments the last is the suffix and the rest rejoined form the
product name, otherwise the whole name is the product with both sentinels. -/
def parseItemName (rawName : String) : String × String × String :=
  let parts := jsSplit " - " rawName
  if 2 ≤ parts.length then
    parseSuffix (String.intercalate " - " parts.dropLast) (parts.getLastD "")
  else
    (rawName, "Unknown", "Unknown")

/-- One row's line-item parse (`csvParser.ts` lines 93–144): `none` when the
row is silently dropped (empty `Lineitem name` or `parseInt` gives `NaN`). -/
def parseRowItem (index : Nat) (row : CSVRow) : Option ParsedItem :=
  match jsParseInt row.lineitemQuantity with
  | some quantity =>
    if row.lineitemName = "" then none
    else
      let pcs := parseItemName row.lineitemName
      some { id := toString index ++ "-" ++ row.lineitemName
             productName := pcs.1
             color := pcs.2.1
             size := pcs.2.2
             quantity := quantity }
  | none => none

/-- JavaScript `a || b` on strings: `b` when `a` is empty (falsy). -/
def jsOrElse (a b : String) : String := if a = "" then b else a

/-- Order construction from a header row (`csvParser.ts` lines 160–172). -/
def mkOrderFromRow (row : CSVRow) : Order :=
  let total := jsParseFloat (jsOrElse row.total "0")
  { id := row.name
    name := row.name
    date := row.createdAt
    total := total
    subtotal := jsParseFloat (jsOrElse row.subtotal "0")
    shippingCost := 0
    netEarnings := total }

/-- Accumulator of the single pass over the orders file: the item list and
the `Map` of orders keyed by order name (insertion order preserved). -/
structure ParseState where
  items : List ParsedItem
  ordersMap : List (String × Order)
deriving Repr, DecidableEq

/-- The line-item half of one `results.data.forEach` iteration of
`parseCSV`: append the parsed line item, if any. -/
def itemStep (st : ParseState) (index : Nat) (row : CSVRow) : ParseState :=
  match parseRowItem index row with
  | some item => { st with items := st.items ++ [item] }
  | none => st

/-- One iteration of the `results.data.forEach` body of `parseCSV`
(`csvParser.ts` lines 93–174): append the parsed line item (if any), then
create an order when the name is non-empty and fresh and `Created at` is
non-empty. -/
def parseStep (st : ParseState) (index : Nat) (row : CSVRow) : ParseState :=
  let st1 := itemStep st index row
  if row.name ≠ "" ∧ st1.ordersMap.lookup row.name = none ∧ row.createdAt ≠ "" then
    { st1 with ordersMap := st1.ordersMap ++ [(row.name, mkOrderFromRow row)] }
  else st1

/-- The core of `parseCSV` after the external CSV reader: the indexed single pass over
the materialized rows; orders are emitted as `Array.from(map.values())`. -/
def parseCSVRows (rows : List CSVRow) : List ParsedItem × List Order :=
  let st := rows.enum.foldl (fun st p => parseStep st p.1 p.2) ⟨[], []⟩
  (st.items, st.ordersMap.map Prod.snd)

/-- The `AggregatedData` record of `csvParser.ts`, with the two pivot levels as
insertion-ordered association lists. -/
structure AggregatedData where
  products : List (String × List (String × Int))
  colorTotals : List (String × List (String × Int))
  totals : List (String × Int)
  grandTotal : Int
  orders : List Order
deriving Repr, DecidableEq

/-- A size record pre-populated with every canonical size at zero
(`ORDERED_SIZES.forEach((s) => (m[s] = 0))`). -/
def initSizes : List (String × Int) := ORDERED_SIZES.map (fun s => (s, 0))

/-- In-place `m[sz] += q` on a size record. -/
def bumpSizes (m : List (String × Int)) (sz : String) (q : Int) : List (String × Int) :=
  m.map (fun p => if p.1 = sz then (p.1, p.2 + q) else p)

/-- Creation-if-absent followed by the in-place size increment on an outer
pivot table (the two-step body of the aggregation loop). -/
def bumpOuter (m : List (String × List (String × Int))) (key sz : String) (q : Int) :
    List (String × List (String × Int)) :=
  let m' := if (m.lookup key).isSome then m else m ++ [(key, initSizes)]
  m'.map (fun p => if p.1 = key then (p.1, bumpSizes p.2 sz q) else p)

/-- Mutable state of the `items.forEach` loop of `aggregateData`. -/
structure AggState where
  products : List (String × List (String × Int))
  colorTotals : List (String × List (String × Int))
  totals : List (String × Int)
  grandTotal : Int
deriving Repr, DecidableEq

/-- The `items.forEach` body of `aggregateData` (`csvParser.ts` lines
269–292): items whose size is not canonical are skipped entirely. -/
def aggStep (st : AggState) (item : ParsedItem) : AggState :=
  if item.size ∈ ORDERED_SIZES then
    let rowKey := item.productName ++ " - " ++ item.color
    { products := bumpOuter st.products rowKey item.size item.quantity
      colorTotals := bumpOuter st.colorTotals (detectColorFamily item.color) item.size item.quantity
      totals := bumpSizes st.totals item.size item.quantity
      grandTotal := st.grandTotal + item.quantity }
  else st

/-- The `aggregateData` function (`csvParser.ts` lines 258–295). -/
def aggregateData (items : List ParsedItem) (orders : List Order) : AggregatedData :=
  let st := items.foldl aggStep
    { products := [], colorTotals := [], totals := initSizes, grandTotal := 0 }
  { products := st.products, colorTotals := st.colorTotals,
    totals := st.totals, grandTotal := st.grandTotal, orders := orders }

/-- Does `w1`, optional whitespace, then `w2` occur at the head of `cs`? -/
def wordGapHere (w1 w2 cs : List Char) : Bool :=
  w1.isPrefixOf cs && w2.isPrefixOf ((cs.drop w1.length).dropWhile Char.isWhitespace)

/-- Does `w1`, optional whitespace, then `w2` occur anywhere in `cs`? -/
def containsWordGap (w1 w2 : List Char) : List Char → Bool
  | [] => false
  | c :: rest => wordGapHere w1 w2 (c :: rest) || containsWordGap w1 w2 rest

/-- The key-column heuristic of `parseShippingCSV` (the bare `name` alternative
subsumes `order\s*name`, which is kept for fidelity). -/
def matchesNameColumn (h : String) : Bool :=
  let l := (jsToLower h).data
  containsWordGap "order".data "name".data l || containsWordGap "order".data "id".data l
    || containsSub "name".data l

/-- The cost-column heuristic of `parseShippingCSV`. -/
def matchesCostColumn (h : String) : Bool :=
  let l := (jsToLower h).data
  containsWordGap "shipping".data "charge".data l || containsSub "cost".data l
    || containsSub "amount".data l || containsSub "price".data l || containsSub "label".data l

/-- A shipping-file row: a string-keyed record; a missing column reads as the
empty (falsy) string, like `undefined` in the source. -/
def ShippingRow : Type := List (String × String)

/-- Cell access on a shipping row. -/
def rowGet (row : ShippingRow) (k : String) : String := (List.lookup k row).getD ""

/-- The value-stripping step of `parseShippingCSV`: keep only digits, `.` and `-`. -/
def stripNonNumeric (s : String) : String :=
  ⟨s.data.filter (fun c => c.isDigit || c = '.' || c = '-')⟩

/-- JavaScript `Map.prototype.set`: update in place when the key exists, else append. -/
def mapSet (m : List (String × ℚ)) (k : String) (v : ℚ) : List (String × ℚ) :=
  if (m.lookup k).isSome then m.map (fun p => if p.1 = k then (p.1, v) else p)
  else m ++ [(k, v)]

/-- The body of the `results.data.forEach` of `parseShippingCSV`
(`csvParser.ts` lines 231–242), applied to the two extracted cells. -/
def shippingStepCore (costs : List (String × ℚ)) (name costVal : String) :
    List (String × ℚ) :=
  if name ≠ "" ∧ costVal ≠ "" then
    let trimmed := jsTrim name
    let normalizedName := if jsStartsWith "#" trimmed then trimmed else "#" ++ trimmed
    match jsParseFloat (stripNonNumeric costVal) with
    | some cost => mapSet costs normalizedName cost
    | none => costs
  else costs

/-- The `results.data.forEach` body of `parseShippingCSV` (`csvParser.ts`
lines 227–243): extract the two cells (`""`, resp. `"0"`, when the column is
unresolved, like `undefined`/the literal fallback in the source). -/
def shippingStep (nameKey costKey : Option String) (costs : List (String × ℚ))
    (row : ShippingRow) : List (String × ℚ) :=
  shippingStepCore costs
    (match nameKey with | some k => rowGet row k | none => "")
    (match costKey with | some k => rowGet row k | none => "0")

/-- The core of `parseShippingCSV` after the external CSV reader (`csvParser.ts` lines
210–244): heuristic column resolution, then the row pass. -/
def parseShippingRows (headers : List String) (rows : List ShippingRow) :
    List (String × ℚ) :=
  let nameKey := headers.find? (fun h => matchesNameColumn h)
  let costKey := headers.find? (fun h => matchesCostColumn h)
  rows.foldl (shippingStep nameKey costKey) []

/-- JavaScript `+` on possibly-NaN numbers. -/
def jsAdd : Option ℚ → Option ℚ → Option ℚ
  | some a, some b => some (a + b)
  | _, _ => none

/-- JavaScript `-` on possibly-NaN numbers. -/
def jsSub : Option ℚ → Option ℚ → Option ℚ
  | some a, some b => some (a - b)
  | _, _ => none

/-- JavaScript `*` on possibly-NaN numbers. -/
def jsMul : Option ℚ → Option ℚ → Option ℚ
  | some a, some b => some (a * b)
  | _, _ => none

/-- An order as produced by `getProcessedOrders` in `App.tsx`. -/
structure ProcessedOrder extends Order where
  shopifyFee : Option ℚ
  netAfterFees : Option ℚ
deriving Repr, DecidableEq

/-- The per-order fee computation of `getProcessedOrders` (`App.tsx` lines
308–320): `shopifyFee = total * (percent / 100) + fixed` and
`netAfterFees = subtotal - shopifyFee`. -/
def computeOrderFees (percent fixed : ℚ) (o : Order) : ProcessedOrder :=
  let shopifyFeeVal := jsAdd (jsMul o.total (some (percent / 100))) (some fixed)
  { toOrder := o, shopifyFee := shopifyFeeVal, netAfterFees := jsSub o.subtotal shopifyFeeVal }

/-- The `getProcessedOrders` computation (`App.tsx` lines 301–340).  The subsequent in-place
sort only permutes the list (it is keyed by UI sort state) and is omitted;
every property proved below is permutation-invariant. -/
def getProcessedOrders (percent fixed : ℚ) (orders : List Order) : List ProcessedOrder :=
  orders.map (computeOrderFees percent fixed)

/-- The record returned by `getEarningsStats`. -/
structure EarningsStats where
  totalSubtotal : Option ℚ
  totalShipping : ℚ
  totalShopify : Option ℚ
  netProfit : Option ℚ
  totalBlank : ℚ
deriving Repr, DecidableEq

/-- The `getEarningsStats` computation (`App.tsx` lines 369–392): batch sums by `reduce` from
zero, and `netProfit = totalSubtotal - shipping - totalShopify - blanks`. -/
def getEarningsStats (shippingCost blankCosts : ℚ) (orders : List ProcessedOrder) :
    EarningsStats :=
  let totalSubtotal := orders.foldl (fun acc o => jsAdd acc o.subtotal) (some 0)
  let totalShopify := orders.foldl (fun acc o => jsAdd acc o.shopifyFee) (some 0)
  let netProfit := jsSub (jsSub (jsSub totalSubtotal (some shippingCost)) totalShopify) (some blankCosts)
  { totalSubtotal := totalSubtotal, totalShipping := shippingCost,
    totalShopify := totalShopify, netProfit := netProfit, totalBlank := blankCosts }

/-! ### Association-list helper lemmas -/

/-- A successful association-list lookup names one of the keys. -/
theorem lookup_mem_keys {β : Type} (k : String) (v : β) :
    ∀ l : List (String × β), List.lookup k l = some v → k ∈ l.map Prod.fst := by
  intro l
  induction l with
  | nil => intro h; simp at h
  | cons p rest ih =>
    intro h
    obtain ⟨a, b⟩ := p
    cases hk : (k == a) with
    | true =>
      have : k = a := by simpa using hk
      simp [this]
    | false =>
      have hr : List.lookup k rest = some v := by
        simpa [List.lookup, hk] using h
      simpa using Or.inr (ih hr)

/-- Looking up a key that is absent from an association list yields `none`. -/
theorem lookup_eq_none_of_not_mem {β : Type} (k : String) :
    ∀ l : List (String × β), k ∉ l.map Prod.fst → List.lookup k l = none := by
  intro l
  induction l with
  | nil => intro _; simp
  | cons p rest ih =>
    intro h
    obtain ⟨a, b⟩ := p
    simp only [List.map_cons, List.mem_cons, not_or] at h
    have hk : (k == a) = false := by simpa using h.1
    simpa [List.lookup, hk] using ih h.2

/-- For a non-empty token, `normalizeSize` is the table lookup of the
upper-cased token. -/
theorem normalizeSize_eq_lookup (s : String) (h : s ≠ "") :
    normalizeSize s = SIZE_MAPPING.lookup (jsToUpper s) := by
  simp [normalizeSize, h]

/-- C6: every documented size token, in any letter case, maps to its canonical
bucket, and every token whose upper-cased form is not one of the nineteen
table keys yields the `none` (no-match) result rather than a size. -/
theorem normalizeSize_table :
    (∀ p ∈ ([("XS", "XS"), ("XSMALL", "XS"), ("S", "SMALL"), ("SMALL", "SMALL"),
        ("SM", "SMALL"), ("M", "MEDIUM"), ("MEDIUM", "MEDIUM"), ("MD", "MEDIUM"),
        ("L", "LARGE"), ("LARGE", "LARGE"), ("LG", "LARGE"), ("XL", "XL"),
        ("XLARGE", "XL"), ("2XL", "2XL"), ("XXL", "2XL"), ("2X", "2XL"),
        ("3XL", "3XL"), ("XXXL", "3XL"), ("3X", "3XL")] : List (String × String)),
      ∀ s : String, jsToUpper s = p.1 → normalizeSize s = some p.2) ∧
    (∀ s : String,
      jsToUpper s ∉ ["XS", "XSMALL", "S", "SMALL", "SM", "M", "MEDIUM", "MD", "L",
        "LARGE", "LG", "XL", "XLARGE", "2XL", "XXL", "2X", "3XL", "XXXL", "3X"] →
      normalizeSize s = none) := by
  constructor
  · intro p hp s hs
    have hne : s ≠ "" := by
      rintro rfl
      rw [show jsToUpper "" = "" from rfl] at hs
      fin_cases hp <;> exact absurd hs (by decide)
    rw [normalizeSize_eq_lookup s hne, hs]
    fin_cases hp <;> decide
  · intro s hmem
    by_cases hne : s = ""
    · subst hne; decide
    · rw [normalizeSize_eq_lookup s hne]
      apply lookup_eq_none_of_not_mem
      intro hk
      apply hmem
      simp only [SIZE_MAPPING, List.map_cons, List.map_nil, List.mem_cons,
        List.not_mem_nil, or_false] at hk
      rcases hk with h|h|h|h|h|h|h|h|h|h|h|h|h|h|h|h|h|h|h <;> (rw [h]; decide)

/-- Witness for C6 at the concrete tokens `"sm"` and `"Huge"`. -/
theorem normalizeSize_table_witness :
    normalizeSize "sm" = some "SMALL" ∧ normalizeSize "Huge" = none :=
  ⟨normalizeSize_table.1 ("SM", "SMALL") (by decide) "sm" (by decide),
   normalizeSize_table.2 "Huge" (by decide)⟩

/-- C7: a row whose quantity does not parse as an integer (`parseInt` gives
`NaN`) or whose item name is empty produces no `LineItem` — it is silently
dropped (`none`), not an error. -/
theorem parseRowItem_drops_invalid (index : Nat) (row : CSVRow)
    (h : jsParseInt row.lineitemQuantity = none ∨ row.lineitemName = "") :
    parseRowItem index row = none := by
  rcases h with h | h
  · simp [parseRowItem, h]
  · cases hq : jsParseInt row.lineitemQuantity <;> simp [parseRowItem, hq, h]

/-- Witness for C7: quantity `"abc"` and name `""` each drop the row. -/
theorem parseRowItem_drops_invalid_witness :
    parseRowItem 0 ⟨"abc", "Tee - Red / L", "", "", "", ""⟩ = none ∧
    parseRowItem 1 ⟨"2", "", "", "", "", ""⟩ = none :=
  ⟨parseRowItem_drops_invalid 0 _ (Or.inl (by decide)),
   parseRowItem_drops_invalid 1 _ (Or.inr rfl)⟩

/-- C9 counterexample: the parser performs no positivity check, so the row
`quantity = "0"` yields a `LineItem` with quantity `0`, refuting
`quantity : integer > 0`. -/
theorem parseRowItem_positive_quantity_cex :
    ¬ ∀ (index : Nat) (row : CSVRow) (item : ParsedItem),
        parseRowItem index row = some item → 0 < item.quantity := by
  intro h
  have h0 := h 0 ⟨"0", "Tee", "", "", "", ""⟩ ⟨"0-Tee", "Tee", "Unknown", "Unknown", 0⟩
    (by decide)
  exact absurd h0 (by decide)

/-- C9 amended: every produced `LineItem` carries exactly the successfully
parsed integer of its row's quantity field (which may be zero or negative —
strict positivity is not enforced by the code). -/
theorem parseRowItem_quantity_parsed (index : Nat) (row : CSVRow) (item : ParsedItem)
    (h : parseRowItem index row = some item) :
    jsParseInt row.lineitemQuantity = some item.quantity := by
  cases hq : jsParseInt row.lineitemQuantity with
  | none => simp [parseRowItem, hq] at h
  | some q =>
    by_cases hn : row.lineitemName = ""
    · simp [parseRowItem, hq, hn] at h
    · simp [parseRowItem, hq, hn] at h
      subst h
      rfl

/-- Witness for the amended C9 at the concrete quantity `"0"`. -/
theorem parseRowItem_quantity_parsed_witness : jsParseInt "0" = some (0 : Int) :=
  parseRowItem_quantity_parsed 0 ⟨"0", "Tee", "", "", "", ""⟩
    ⟨"0-Tee", "Tee", "Unknown", "Unknown", 0⟩ (by decide)

/-- C3: for a raw name whose `" - "` suffix splits on `"/"` into exactly two
trimmed parts, the first part wins as the size when it normalizes (the other
part being the color); otherwise the second part is tried; when neither
normalizes the whole raw suffix becomes the color and the size stays
`"Unknown"`. -/
theorem parseItemName_two_part (rawName partA partB : String)
    (hlen : 2 ≤ (jsSplit " - " rawName).length)
    (hparts : (jsSplit "/" ((jsSplit " - " rawName).getLastD "")).map jsTrim
      = [partA, partB]) :
    (∀ ca, normalizeSize partA = some ca →
      parseItemName rawName =
        (String.intercalate " - " (jsSplit " - " rawName).dropLast, partB, ca)) ∧
    (normalizeSize partA = none → ∀ cb, normalizeSize partB = some cb →
      parseItemName rawName =
        (String.intercalate " - " (jsSplit " - " rawName).dropLast, partA, cb)) ∧
    (normalizeSize partA = none → normalizeSize partB = none →
      parseItemName rawName =
        (String.intercalate " - " (jsSplit " - " rawName).dropLast,
          (jsSplit " - " rawName).getLastD "", "Unknown")) := by
  have hname : parseItemName rawName =
      parseSuffix (String.intercalate " - " (jsSplit " - " rawName).dropLast)
        ((jsSplit " - " rawName).getLastD "") := by
    rw [parseItemName]
    simp only [hlen, if_pos]
  refine ⟨?_, ?_, ?_⟩
  · intro ca hca
    rw [hname, parseSuffix]
    simp only [hparts, hca]
  · intro hA cb hcb
    rw [hname, parseSuffix]
    simp only [hparts, hA, hcb]
  · intro hA hB
    rw [hname, parseSuffix]
    simp only [hparts, hA, hB]

/-- Witness for C3: the specified example item name. -/
theorem parseItemName_two_part_witness :
    parseItemName "Classic Tee - Navy / Large" = ("Classic Tee", "Navy", "LARGE") := by
  have h := (parseItemName_two_part "Classic Tee - Navy / Large" "Navy" "Large"
    (by decide) (by decide)).2.1 (by decide) "LARGE" (by decide)
  rw [h]
  decide

/-- When `findSplit` finds the separator, every separator character occurs in
the scanned list. -/
theorem findSplit_some_subset (sep : List Char) :
    ∀ (cs : List Char) (pr : List Char × List Char),
      findSplit sep cs = some pr → ∀ c ∈ sep, c ∈ cs := by
  intro cs
  induction cs with
  | nil => intro pr h; simp [findSplit] at h
  | cons x rest ih =>
    intro pr h c hc
    rw [findSplit] at h
    by_cases hp : (!sep.isEmpty && sep.isPrefixOf (x :: rest)) = true
    · have hp2 : sep.isPrefixOf (x :: rest) = true := by
        have := hp
        simp only [Bool.and_eq_true] at this
        exact this.2
      have hpre : sep <+: x :: rest := List.isPrefixOf_iff_prefix.mp hp2
      exact hpre.sublist.subset hc
    · rw [if_neg hp] at h
      cases hf : findSplit sep rest with
      | none => rw [hf] at h; exact absurd h (by simp)
      | some pr2 =>
        rw [hf] at h
        exact List.mem_cons_of_mem x (ih pr2 (by rw [hf]) c hc)

/-- A `"/"` split with at least two fields means the string contains `'/'`. -/
theorem jsSplit_slash_mem (s : String) (h : 2 ≤ (jsSplit "/" s).length) :
    '/' ∈ s.data := by
  rw [jsSplit, List.length_map] at h
  cases hf : findSplit "/".data s.data with
  | none => rw [splitChars, hf] at h; simp at h
  | some pr => exact findSplit_some_subset "/".data s.data pr hf '/' (by decide)

/-- A token containing `'/'` never normalizes as a size. -/
theorem normalizeSize_slash (suffix : String) (h : '/' ∈ suffix.data) :
    normalizeSize suffix = none := by
  have hne : suffix ≠ "" := by
    rintro rfl
    simp at h
  rw [normalizeSize_eq_lookup suffix hne]
  apply lookup_eq_none_of_not_mem
  intro hk
  have hslash : '/' ∈ (jsToUpper suffix).data :=
    List.mem_map.mpr ⟨'/', h, by decide⟩
  simp only [SIZE_MAPPING, List.map_cons, List.map_nil, List.mem_cons,
    List.not_mem_nil, or_false] at hk
  rcases hk with h'|h'|h'|h'|h'|h'|h'|h'|h'|h'|h'|h'|h'|h'|h'|h'|h'|h'|h' <;>
    (rw [h'] at hslash; exact absurd hslash (by decide))

/-- C10: when the `" - "` suffix splits on `"/"` into three or more parts,
the single-token fallback applies to the entire suffix; since a string
containing `'/'` never normalizes as a size, the color is the whole suffix
and the size is `"One Size"`. -/
theorem parseItemName_multi_part (rawName : String)
    (hlen : 2 ≤ (jsSplit " - " rawName).length)
    (hsp : 3 ≤ ((jsSplit "/" ((jsSplit " - " rawName).getLastD "")).map jsTrim).length) :
    parseItemName rawName =
      (String.intercalate " - " (jsSplit " - " rawName).dropLast,
        (jsSplit " - " rawName).getLastD "", "One Size") := by
  have hname : parseItemName rawName =
      parseSuffix (String.intercalate " - " (jsSplit " - " rawName).dropLast)
        ((jsSplit " - " rawName).getLastD "") := by
    rw [parseItemName]
    simp only [hlen, if_pos]
  have hslash : '/' ∈ ((jsSplit " - " rawName).getLastD "").data := by
    apply jsSplit_slash_mem
    rw [List.length_map] at hsp
    omega
  rw [hname, parseSuffix]
  rcases hl : (jsSplit "/" ((jsSplit " - " rawName).getLastD "")).map jsTrim with
      _ | ⟨a, _ | ⟨b, _ | ⟨c, tail⟩⟩⟩
  · rw [hl] at hsp; simp at hsp
  · rw [hl] at hsp; simp at hsp
  · rw [hl] at hsp; simp at hsp
  · simp only [normalizeSize_slash _ hslash]

/-- Witness for C10 at a concrete three-part suffix. -/
theorem parseItemName_multi_part_witness :
    parseItemName "A - B - Red / Blue / XL" = ("A - B", "Red / Blue / XL", "One Size") := by
  have h := parseItemName_multi_part "A - B - Red / Blue / XL" (by decide) (by decide)
  rw [h]
  decide


/-! ### Order extraction (C2, C8) -/

/-- The order-map part of `parseStep`, which depends only on the row. -/
def orderStep (m : List (String × Order)) (row : CSVRow) : List (String × Order) :=
  if row.name ≠ "" ∧ List.lookup row.name m = none ∧ row.createdAt ≠ "" then
    m ++ [(row.name, mkOrderFromRow row)]
  else m

/-- The orders `Map` built by the single pass of `parseCSV`. -/
def ordersIndex (rows : List CSVRow) : List (String × Order) :=
  (rows.enum.foldl (fun st p => parseStep st p.1 p.2) ⟨[], []⟩).ordersMap

theorem itemStep_ordersMap (st : ParseState) (i : Nat) (row : CSVRow) :
    (itemStep st i row).ordersMap = st.ordersMap := by
  rw [itemStep]
  cases parseRowItem i row <;> rfl

theorem parseStep_ordersMap (st : ParseState) (i : Nat) (row : CSVRow) :
    (parseStep st i row).ordersMap = orderStep st.ordersMap row := by
  rw [parseStep, orderStep]
  simp only [apply_ite ParseState.ordersMap, itemStep_ordersMap]

theorem parseFold_ordersMap (l : List (Nat × CSVRow)) :
    ∀ st : ParseState,
      (l.foldl (fun st p => parseStep st p.1 p.2) st).ordersMap
        = (l.map Prod.snd).foldl orderStep st.ordersMap := by
  induction l with
  | nil => intro st; rfl
  | cons p rest ih =>
    intro st
    rw [List.foldl_cons, List.map_cons, List.foldl_cons, ih, parseStep_ordersMap]

/-- The `ordersIndex` map is the plain row fold of `orderStep`. -/
theorem ordersIndex_eq_foldl (rows : List CSVRow) :
    ordersIndex rows = rows.foldl orderStep [] := by
  rw [ordersIndex, parseFold_ordersMap, List.enum_map_snd]

/-- Appending an entry only affects lookups of its own key, and only when
that key was previously absent. -/
theorem lookup_append_entry {β : Type} (k a : String) (v : β) (l : List (String × β)) :
    List.lookup k (l ++ [(a, v)])
      = (List.lookup k l).or (if k = a then some v else none) := by
  induction l with
  | nil =>
    by_cases hk : k = a
    · simp [List.lookup, hk]
    · have hbeq : (k == a) = false := by simpa using hk
      simp [List.lookup, hbeq, hk]
  | cons p rest ih =>
    obtain ⟨b, w⟩ := p
    cases hk : (k == b) with
    | true => simp [List.lookup, hk]
    | false =>
      simp only [List.cons_append, List.lookup, hk]
      exact ih

/-- A key present in an association list has a successful lookup. -/
theorem lookup_isSome_of_mem_keys {β : Type} (k : String) :
    ∀ l : List (String × β), k ∈ l.map Prod.fst → (List.lookup k l).isSome := by
  intro l
  induction l with
  | nil => simp
  | cons p rest ih =>
    obtain ⟨a, b⟩ := p
    intro h
    by_cases hk : k = a
    · simp [List.lookup, hk]
    · have hmem : k ∈ rest.map Prod.fst := by simpa [hk] using h
      have hbeq : (k == a) = false := by simpa using hk
      simpa [List.lookup, hbeq] using ih hmem

/-- The first-row-with-a-date-wins characterization of the order fold. -/
theorem orderStep_foldl_lookup (name : String) (hne : name ≠ "") :
    ∀ (rows : List CSVRow) (m : List (String × Order)),
      List.lookup name (rows.foldl orderStep m)
        = (List.lookup name m).or
            ((rows.find? (fun r => r.name == name && r.createdAt != "")).map
              mkOrderFromRow) := by
  intro rows
  induction rows with
  | nil => intro m; simp
  | cons r rest ih =>
    intro m
    rw [List.foldl_cons, ih]
    by_cases hname : r.name = name
    · by_cases hdate : r.createdAt = ""
      · rw [List.find?_cons_of_neg _ (by simp [hname, hdate]),
          show orderStep m r = m from by
            rw [orderStep, if_neg]
            rintro ⟨-, -, h⟩
            exact h hdate]
      · rw [List.find?_cons_of_pos _ (by simp [hname, hdate])]
        cases hm : List.lookup name m with
        | some o =>
          have hstep : orderStep m r = m := by
            rw [orderStep, if_neg]
            rintro ⟨-, h2, -⟩
            rw [hname, hm] at h2
            exact absurd h2 (by simp)
          rw [hstep, hm]
          rfl
        | none =>
          have hstep : orderStep m r = m ++ [(r.name, mkOrderFromRow r)] := by
            rw [orderStep, if_pos]
            exact ⟨by rw [hname]; exact hne, by rw [hname]; exact hm, hdate⟩
          rw [hstep, lookup_append_entry, hm]
          simp [hname]
    · rw [List.find?_cons_of_neg _ (by simp [hname])]
      have hstep : List.lookup name (orderStep m r) = List.lookup name m := by
        rw [orderStep]
        by_cases hins : r.name ≠ "" ∧ List.lookup r.name m = none ∧ r.createdAt ≠ ""
        · rw [if_pos hins, lookup_append_entry,
            if_neg (fun h => hname h.symm), Option.or_none]
        · rw [if_neg hins]
      rw [hstep]

/-- The order fold never duplicates a key. -/
theorem orderStep_foldl_keys_nodup :
    ∀ (rows : List CSVRow) (m : List (String × Order)),
      (m.map Prod.fst).Nodup → ((rows.foldl orderStep m).map Prod.fst).Nodup := by
  intro rows
  induction rows with
  | nil => intro m h; exact h
  | cons r rest ih =>
    intro m h
    rw [List.foldl_cons]
    apply ih
    rw [orderStep]
    by_cases hins : r.name ≠ "" ∧ List.lookup r.name m = none ∧ r.createdAt ≠ ""
    · rw [if_pos hins, List.map_append, List.nodup_append]
      refine ⟨h, by simp, ?_⟩
      intro a ha hb
      simp at hb
      rw [hb] at ha
      have hs := lookup_isSome_of_mem_keys r.name m ha
      rw [hins.2.1] at hs
      exact absurd hs (by simp)
    · rw [if_neg hins]
      exact h

/-- The order fold never records an empty key. -/
theorem orderStep_foldl_no_empty_key :
    ∀ (rows : List CSVRow) (m : List (String × Order)),
      "" ∉ m.map Prod.fst → "" ∉ (rows.foldl orderStep m).map Prod.fst := by
  intro rows
  induction rows with
  | nil => intro m h; exact h
  | cons r rest ih =>
    intro m h
    rw [List.foldl_cons]
    apply ih
    rw [orderStep]
    by_cases hins : r.name ≠ "" ∧ List.lookup r.name m = none ∧ r.createdAt ≠ ""
    · rw [if_pos hins, List.map_append]
      intro hmem
      rcases List.mem_append.mp hmem with hmem | hmem
      · exact h hmem
      · simp at hmem
        exact hins.1 hmem.symm
    · rw [if_neg hins]
      exact h

/-- C2: the orders map holds at most one `Order` per distinct non-empty order
name, namely the one built from the first row in sequence order bearing that
name whose `Created at` is non-empty; later rows with the same name never
overwrite it, the keys are unique and never empty, and the emitted order list
is exactly the map's values. -/
theorem parseCSV_orders_unique_first_wins (rows : List CSVRow) (name : String)
    (hne : name ≠ "") :
    List.lookup name (ordersIndex rows)
      = (rows.find? (fun r => r.name == name && r.createdAt != "")).map mkOrderFromRow ∧
    ((ordersIndex rows).map Prod.fst).Nodup ∧
    "" ∉ (ordersIndex rows).map Prod.fst ∧
    (parseCSVRows rows).2 = (ordersIndex rows).map Prod.snd := by
  refine ⟨?_, ?_, ?_, rfl⟩
  · rw [ordersIndex_eq_foldl, orderStep_foldl_lookup name hne rows []]
    simp
  · rw [ordersIndex_eq_foldl]
    exact orderStep_foldl_keys_nodup rows [] (by simp)
  · rw [ordersIndex_eq_foldl]
    exact orderStep_foldl_no_empty_key rows [] (by simp)

theorem jsParseFloat_fifty : jsParseFloat "50" = some 50 := by
  rw [show jsParseFloat "50"
      = some ((((50 : ℕ) : ℚ) + ((0 : ℕ) : ℚ) / 10 ^ (0 : ℕ)) * 10 ^ (0 : ℤ)) from rfl]
  norm_num

/-- Witness for C2: the specified two-row example produces exactly one order,
with total `50`. -/
theorem parseCSV_orders_unique_first_wins_witness :
    List.lookup "#1001" (ordersIndex [⟨"", "", "#1001", "12/26/2025 18:48", "50", "45"⟩,
        ⟨"", "", "#1001", "", "60", "55"⟩])
      = some (mkOrderFromRow ⟨"", "", "#1001", "12/26/2025 18:48", "50", "45"⟩) ∧
    (parseCSVRows [⟨"", "", "#1001", "12/26/2025 18:48", "50", "45"⟩,
        ⟨"", "", "#1001", "", "60", "55"⟩]).2.map Order.total = [some 50] := by
  constructor
  · rw [(parseCSV_orders_unique_first_wins
      [⟨"", "", "#1001", "12/26/2025 18:48", "50", "45"⟩,
       ⟨"", "", "#1001", "", "60", "55"⟩] "#1001" (by decide)).1]
    rfl
  · rw [show (parseCSVRows [⟨"", "", "#1001", "12/26/2025 18:48", "50", "45"⟩,
        ⟨"", "", "#1001", "", "60", "55"⟩]).2.map Order.total
      = [jsParseFloat "50"] from rfl, jsParseFloat_fifty]

/-! ### Monetary defaults (C8) -/

theorem jsParseFloat_zero : jsParseFloat "0" = some 0 := by
  rw [show jsParseFloat "0"
      = some ((((0 : ℕ) : ℚ) + ((0 : ℕ) : ℚ) / 10 ^ (0 : ℕ)) * 10 ^ (0 : ℤ)) from rfl]
  norm_num

/-- C8 counterexample: an order row whose non-empty `Total` text `"abc"` does
not parse yields an Order whose total is `NaN` (modelled `none`) — not `0`. -/
theorem order_total_unparseable_cex :
    (parseCSVRows [⟨"", "", "#1", "2025-01-01", "abc", "5"⟩]).2.map Order.total
      = [none] ∧ (none : Option ℚ) ≠ some 0 := by
  exact ⟨rfl, by simp⟩

/-- C8 amended: when a row creates an Order, an empty `Total`/`Subtotal`
defaults (via the `|| "0"` fallback) to `0`; a non-empty field is stored as
its JavaScript float parse, which is `NaN` (`none`) — not `0` — when the text
has no numeric prefix. -/
theorem order_total_empty_defaults (rows : List CSVRow) (name : String) (r : CSVRow)
    (hne : name ≠ "")
    (hfind : rows.find? (fun r => r.name == name && r.createdAt != "") = some r) :
    List.lookup name (ordersIndex rows) = some (mkOrderFromRow r) ∧
    (r.total = "" → (mkOrderFromRow r).total = some 0) ∧
    (r.total ≠ "" → (mkOrderFromRow r).total = jsParseFloat r.total) ∧
    (r.subtotal = "" → (mkOrderFromRow r).subtotal = some 0) ∧
    (r.subtotal ≠ "" → (mkOrderFromRow r).subtotal = jsParseFloat r.subtotal) := by
  refine ⟨?_, ?_, ?_, ?_, ?_⟩
  · rw [ordersIndex_eq_foldl, orderStep_foldl_lookup name hne rows [], hfind]
    rfl
  · intro h
    show jsParseFloat (jsOrElse r.total "0") = some 0
    rw [h]
    exact jsParseFloat_zero
  · intro h
    show jsParseFloat (jsOrElse r.total "0") = jsParseFloat r.total
    rw [jsOrElse, if_neg h]
  · intro h
    show jsParseFloat (jsOrElse r.subtotal "0") = some 0
    rw [h]
    exact jsParseFloat_zero
  · intro h
    show jsParseFloat (jsOrElse r.subtotal "0") = jsParseFloat r.subtotal
    rw [jsOrElse, if_neg h]

/-- Witness for the amended C8: an empty `Total` cell defaults to `0`. -/
theorem order_total_empty_defaults_witness :
    List.lookup "#1" (ordersIndex [⟨"", "", "#1", "d", "", "7"⟩])
      = some (mkOrderFromRow ⟨"", "", "#1", "d", "", "7"⟩) ∧
    (mkOrderFromRow (⟨"", "", "#1", "d", "", "7"⟩ : CSVRow)).total = some 0 := by
  have h := order_total_empty_defaults [⟨"", "", "#1", "d", "", "7"⟩] "#1"
    ⟨"", "", "#1", "d", "", "7"⟩ (by decide) (by rfl)
  exact ⟨h.1, h.2.1 rfl⟩


/-! ### Shipping-cost resolution (C5) -/

/-- One row's contribution to a given normalized key, following the spec's
words: the row contributes only when its key and value cells are non-empty
and its trimmed, `"#"`-prefixed key equals the queried key; the contribution
is the float parse of the stripped value, `none` when unparseable. -/
def shippingContributionCore (name costVal key : String) : Option ℚ :=
  if name ≠ "" ∧ costVal ≠ "" ∧
      (if jsStartsWith "#" (jsTrim name) then jsTrim name else "#" ++ jsTrim name) = key then
    jsParseFloat (stripNonNumeric costVal)
  else none

/-- The spec's row contribution with the heuristically resolved columns. -/
def shippingRowContribution (nameKey costKey : Option String) (row : ShippingRow)
    (key : String) : Option ℚ :=
  shippingContributionCore
    (match nameKey with | some k => rowGet row k | none => "")
    (match costKey with | some k => rowGet row k | none => "0") key

/-- The spec's description of the final lookup: the last contributing row for
a key wins. -/
def shippingLookupSpec (headers : List String) (rows : List ShippingRow)
    (key : String) : Option ℚ :=
  rows.foldl (fun acc row =>
    match shippingRowContribution (headers.find? (fun h => matchesNameColumn h))
        (headers.find? (fun h => matchesCostColumn h)) row key with
    | some c => some c
    | none => acc) none

/-- Association-list lookup through a cons cell, phrased with a
propositional `if`. -/
theorem lookup_cons_eq {β : Type} (a k : String) (b : β) (es : List (String × β)) :
    List.lookup a ((k, b) :: es) = if a = k then some b else List.lookup a es := by
  by_cases h : a = k
  · have hbeq : (a == k) = true := by simpa using h
    simp [List.lookup, hbeq, h]
  · have hbeq : (a == k) = false := by simpa using h
    simp [List.lookup, hbeq, h]

/-- Lookup through an in-place value replacement. -/
theorem lookup_map_replace (m : List (String × ℚ)) (k k' : String) (v : ℚ) :
    List.lookup k' (m.map (fun p => if p.1 = k then (p.1, v) else p))
      = if k' = k then (List.lookup k m).map (fun _ => v) else List.lookup k' m := by
  induction m with
  | nil => by_cases h : k' = k <;> simp [h]
  | cons p rest ih =>
    obtain ⟨a, b⟩ := p
    rw [List.map_cons]
    by_cases hak : a = k
    · subst hak
      rw [if_pos rfl]
      by_cases hk : k' = a
      · subst hk
        simp [lookup_cons_eq, ih]
      · simp [lookup_cons_eq, ih, hk]
    · rw [if_neg hak]
      have hka : k ≠ a := fun h => hak h.symm
      by_cases hk : k' = a
      · subst hk
        simp [lookup_cons_eq, ih, hak, hka]
      · simp [lookup_cons_eq, ih, hk, hka]

/-- Lookup through `Map.prototype.set`. -/
theorem lookup_mapSet (m : List (String × ℚ)) (k k' : String) (v : ℚ) :
    List.lookup k' (mapSet m k v) = if k' = k then some v else List.lookup k' m := by
  rw [mapSet]
  by_cases hk : (List.lookup k m).isSome
  · rw [if_pos hk, lookup_map_replace]
    by_cases h : k' = k
    · rw [if_pos h, if_pos h]
      obtain ⟨c, hc⟩ := Option.isSome_iff_exists.mp hk
      rw [hc]
      rfl
    · rw [if_neg h, if_neg h]
  · rw [if_neg hk, lookup_append_entry]
    by_cases h : k' = k
    · rw [if_pos h, if_pos h]
      subst h
      rw [Option.not_isSome_iff_eq_none.mp hk]
      rfl
    · rw [if_neg h, if_neg h, Option.or_none]

/-- One shipping row changes a key's lookup exactly by its contribution. -/
theorem shippingStepCore_lookup (m : List (String × ℚ)) (name costVal key : String) :
    List.lookup key (shippingStepCore m name costVal)
      = match shippingContributionCore name costVal key with
        | some c => some c
        | none => List.lookup key m := by
  simp only [shippingStepCore, shippingContributionCore]
  by_cases h1 : name ≠ "" ∧ costVal ≠ ""
  · rw [if_pos h1]
    cases hp : jsParseFloat (stripNonNumeric costVal) with
    | none => simp
    | some c =>
      by_cases hn : (if jsStartsWith "#" (jsTrim name) then jsTrim name
          else "#" ++ jsTrim name) = key
      · have hcond : name ≠ "" ∧ costVal ≠ "" ∧
            (if jsStartsWith "#" (jsTrim name) then jsTrim name
             else "#" ++ jsTrim name) = key := ⟨h1.1, h1.2, hn⟩
        rw [if_pos hcond]
        simp [lookup_mapSet, hn]
      · have hcond : ¬(name ≠ "" ∧ costVal ≠ "" ∧
            (if jsStartsWith "#" (jsTrim name) then jsTrim name
             else "#" ++ jsTrim name) = key) := fun hc => hn hc.2.2
        rw [if_neg hcond]
        have hkn : key ≠ (if jsStartsWith "#" (jsTrim name) then jsTrim name
            else "#" ++ jsTrim name) := fun h => hn h.symm
        simp [lookup_mapSet, hkn]
  · have hcond : ¬(name ≠ "" ∧ costVal ≠ "" ∧
        (if jsStartsWith "#" (jsTrim name) then jsTrim name
         else "#" ++ jsTrim name) = key) := fun hc => h1 ⟨hc.1, hc.2.1⟩
    rw [if_neg h1, if_neg hcond]

theorem shippingStep_lookup (nameKey costKey : Option String) (m : List (String × ℚ))
    (row : ShippingRow) (key : String) :
    List.lookup key (shippingStep nameKey costKey m row)
      = match shippingRowContribution nameKey costKey row key with
        | some c => some c
        | none => List.lookup key m := by
  rw [shippingStep.eq_def, shippingRowContribution.eq_def, shippingStepCore_lookup]

/-- The shipping fold refines the per-key last-contribution spec. -/
theorem shipping_foldl_lookup (nameKey costKey : Option String) (key : String) :
    ∀ (rows : List ShippingRow) (m : List (String × ℚ)),
      List.lookup key (rows.foldl (shippingStep nameKey costKey) m)
        = rows.foldl (fun acc row =>
            match shippingRowContribution nameKey costKey row key with
            | some c => some c
            | none => acc) (List.lookup key m) := by
  intro rows
  induction rows with
  | nil => intro m; rfl
  | cons r rest ih =>
    intro m
    rw [List.foldl_cons, List.foldl_cons, ih, shippingStep_lookup]

/-- C5: for every key, the lookup built by the shipping parser is exactly the
spec's last-contribution-wins value: a row contributes only with non-empty
key and value cells, under the trimmed `"#"`-normalized key, with the decimal
parsed from the stripped value, skipping unparseable costs; and the
documented example row maps `"#1002"` to `12.50`. -/
theorem parseShippingRows_lookup (headers : List String) (rows : List ShippingRow)
    (key : String) :
    List.lookup key (parseShippingRows headers rows)
      = shippingLookupSpec headers rows key ∧
    List.lookup "#1002" (parseShippingRows ["Order name", "Shipping charge"]
        [[("Order name", "1002"), ("Shipping charge", "$12.50")]])
      = some (12.5 : ℚ) := by
  constructor
  · simp only [parseShippingRows, shippingLookupSpec]
    rw [shipping_foldl_lookup]
    rfl
  · rw [show List.lookup "#1002" (parseShippingRows ["Order name", "Shipping charge"]
        [[("Order name", "1002"), ("Shipping charge", "$12.50")]])
      = some ((((12 : ℕ) : ℚ) + ((50 : ℕ) : ℚ) / 10 ^ (2 : ℕ)) * 10 ^ (0 : ℤ)) from rfl]
    norm_num

/-! ### Earnings (C4) -/

/-- Folding `jsAdd` over a list of defined (non-`NaN`) summands. -/
theorem foldl_jsAdd_some {α : Type} (f : α → Option ℚ) (g : α → ℚ) :
    ∀ (l : List α) (a : ℚ), (∀ x ∈ l, f x = some (g x)) →
      l.foldl (fun acc x => jsAdd acc (f x)) (some a) = some (a + (l.map g).sum) := by
  intro l
  induction l with
  | nil => intro a _; simp
  | cons x rest ih =>
    intro a h
    rw [List.foldl_cons, h x (by simp),
      show jsAdd (some a) (some (g x)) = some (a + g x) from rfl,
      ih (a + g x) (fun y hy => h y (List.mem_cons_of_mem x hy)),
      List.map_cons, List.sum_cons, add_assoc]

/-- C4: per order, `shopifyFee = total * (percent / 100) + fixed` and
`netAfterFees = subtotal - shopifyFee`; at batch level,
`totalSubtotal = Σ subtotal`, `totalShopify = Σ shopifyFee`, and
`netProfit = totalSubtotal - shipping - totalShopify - blanks`. -/
theorem earnings_contract (percent fixed shipping blanks t st : ℚ) (o : Order)
    (orders : List Order)
    (ht : o.total = some t) (hst : o.subtotal = some st)
    (hall : ∀ o' ∈ orders, (∃ t', o'.total = some t') ∧ (∃ s', o'.subtotal = some s')) :
    (computeOrderFees percent fixed o).shopifyFee = some (t * (percent / 100) + fixed) ∧
    (computeOrderFees percent fixed o).netAfterFees
      = some (st - (t * (percent / 100) + fixed)) ∧
    (getEarningsStats shipping blanks (getProcessedOrders percent fixed orders)).totalSubtotal
      = some ((orders.map fun o' => o'.subtotal.getD 0).sum) ∧
    (getEarningsStats shipping blanks (getProcessedOrders percent fixed orders)).totalShopify
      = some ((orders.map fun o' => o'.total.getD 0 * (percent / 100) + fixed).sum) ∧
    (getEarningsStats shipping blanks (getProcessedOrders percent fixed orders)).netProfit
      = some ((orders.map fun o' => o'.subtotal.getD 0).sum - shipping
          - (orders.map fun o' => o'.total.getD 0 * (percent / 100) + fixed).sum - blanks) := by
  have hsub : (getProcessedOrders percent fixed orders).foldl
      (fun acc o' => jsAdd acc o'.subtotal) (some 0)
      = some (0 + ((orders.map fun o' => o'.subtotal.getD 0)).sum) := by
    have h0 := foldl_jsAdd_some (fun po : ProcessedOrder => po.subtotal)
      (fun po : ProcessedOrder => po.subtotal.getD 0)
      (getProcessedOrders percent fixed orders) 0 (by
        intro po hpo
        rw [getProcessedOrders] at hpo
        obtain ⟨o', ho', rfl⟩ := List.mem_map.mp hpo
        obtain ⟨-, s', hs'⟩ := hall o' ho'
        show o'.subtotal = some (o'.subtotal.getD 0)
        rw [hs']
        rfl)
    rw [h0, getProcessedOrders, List.map_map]
    rfl
  have hshop : (getProcessedOrders percent fixed orders).foldl
      (fun acc o' => jsAdd acc o'.shopifyFee) (some 0)
      = some (0 + ((orders.map fun o' => o'.total.getD 0 * (percent / 100) + fixed)).sum) := by
    have h0 := foldl_jsAdd_some (fun po : ProcessedOrder => po.shopifyFee)
      (fun po : ProcessedOrder => po.total.getD 0 * (percent / 100) + fixed)
      (getProcessedOrders percent fixed orders) 0 (by
        intro po hpo
        rw [getProcessedOrders] at hpo
        obtain ⟨o', ho', rfl⟩ := List.mem_map.mp hpo
        obtain ⟨⟨t', ht'⟩, -⟩ := hall o' ho'
        show (computeOrderFees percent fixed o').shopifyFee
          = some ((computeOrderFees percent fixed o').total.getD 0 * (percent / 100) + fixed)
        show jsAdd (jsMul o'.total (some (percent / 100))) (some fixed)
          = some (o'.total.getD 0 * (percent / 100) + fixed)
        rw [ht']
        rfl)
    rw [h0, getProcessedOrders, List.map_map]
    rfl
  refine ⟨?_, ?_, ?_, ?_, ?_⟩
  · show jsAdd (jsMul o.total (some (percent / 100))) (some fixed)
      = some (t * (percent / 100) + fixed)
    rw [ht]
    rfl
  · show jsSub o.subtotal (jsAdd (jsMul o.total (some (percent / 100))) (some fixed))
      = some (st - (t * (percent / 100) + fixed))
    rw [ht, hst]
    rfl
  · show (getProcessedOrders percent fixed orders).foldl
        (fun acc o' => jsAdd acc o'.subtotal) (some 0) = _
    rw [hsub, zero_add]
  · show (getProcessedOrders percent fixed orders).foldl
        (fun acc o' => jsAdd acc o'.shopifyFee) (some 0) = _
    rw [hshop, zero_add]
  · show jsSub (jsSub (jsSub ((getProcessedOrders percent fixed orders).foldl
        (fun acc o' => jsAdd acc o'.subtotal) (some 0)) (some shipping))
        ((getProcessedOrders percent fixed orders).foldl
          (fun acc o' => jsAdd acc o'.shopifyFee) (some 0))) (some blanks) = _
    rw [hsub, hshop, zero_add, zero_add]
    rfl

/-- Witness for C4: the documented `2.9% + 0.30` example on `total = 100`
gives fee `3.2`, and a three-order fixture's `netProfit` is
`143 - 10 - 5.54 - 20 = 107.46`. -/
theorem earnings_contract_witness :
    (computeOrderFees 2.9 0.30 ⟨"", "", "", some 100, some 90, 0, none⟩).shopifyFee
      = some 3.2 ∧
    (getEarningsStats 10 20 (getProcessedOrders 2.9 0.30
        [⟨"", "", "", some 100, some 90, 0, none⟩,
         ⟨"", "", "", some 50, some 45, 0, none⟩,
         ⟨"", "", "", some 10, some 8, 0, none⟩])).netProfit
      = some 107.46 := by
  have h := earnings_contract 2.9 0.30 10 20 100 90
    (⟨"", "", "", some 100, some 90, 0, none⟩ : Order)
    [⟨"", "", "", some 100, some 90, 0, none⟩,
     ⟨"", "", "", some 50, some 45, 0, none⟩,
     ⟨"", "", "", some 10, some 8, 0, none⟩] rfl rfl (by
      intro o' ho'
      fin_cases ho' <;> exact ⟨⟨_, rfl⟩, ⟨_, rfl⟩⟩)
  refine ⟨?_, ?_⟩
  · rw [h.1]
    norm_num
  · rw [h.2.2.2.2]
    norm_num

/-! ### Aggregation (C1) -/

/-- A size record as the tabulation of a function over the canonical sizes. -/
def mkSizes (f : String → Int) : List (String × Int) :=
  ORDERED_SIZES.map (fun s => (s, f s))

/-- Column sum of one canonical size over an outer pivot table. -/
def pivotColumnSum (m : List (String × List (String × Int))) (s : String) : Int :=
  (m.map (fun e => (List.lookup s e.2).getD 0)).sum

theorem initSizes_eq : initSizes = mkSizes (fun _ => 0) := rfl

theorem lookup_mkSizes (f : String → Int) :
    ∀ s ∈ ORDERED_SIZES, List.lookup s (mkSizes f) = some (f s) := by
  intro s hs
  fin_cases hs <;> rfl

theorem bumpSizes_mkSizes (f : String → Int) (sz : String) (q : Int) :
    bumpSizes (mkSizes f) sz q
      = mkSizes (fun s => if s = sz then f s + q else f s) := by
  rw [bumpSizes, mkSizes, mkSizes, List.map_map]
  apply List.map_congr_left
  intro s _
  by_cases h : s = sz <;> simp [h]

theorem sum_mkSizes_lookup (g : String → Int) :
    (ORDERED_SIZES.map (fun s => (List.lookup s (mkSizes g)).getD 0)).sum
      = (ORDERED_SIZES.map g).sum := by
  apply congrArg
  apply List.map_congr_left
  intro s hs
  rw [lookup_mkSizes g s hs]
  rfl

theorem sum_bump (g : String → Int) (sz : String) (hsz : sz ∈ ORDERED_SIZES) (q : Int) :
    (ORDERED_SIZES.map (fun s => if s = sz then g s + q else g s)).sum
      = (ORDERED_SIZES.map g).sum + q := by
  fin_cases hsz <;> (simp [ORDERED_SIZES]; ring)

theorem pivotColumnSum_cons (a : String) (v : List (String × Int))
    (rest : List (String × List (String × Int))) (s : String) :
    pivotColumnSum ((a, v) :: rest) s
      = (List.lookup s v).getD 0 + pivotColumnSum rest s := by
  rw [pivotColumnSum, pivotColumnSum, List.map_cons, List.sum_cons]

theorem bumpOuter_keys (m : List (String × List (String × Int))) (key sz : String) (q : Int) :
    (bumpOuter m key sz q).map Prod.fst
      = (if (List.lookup key m).isSome then m else m ++ [(key, initSizes)]).map Prod.fst := by
  rw [bumpOuter, List.map_map]
  apply List.map_congr_left
  intro p _
  by_cases h : p.1 = key <;> simp [h]

theorem bumpOuter_shape (m : List (String × List (String × Int))) (key sz : String)
    (q : Int) (hshape : ∀ e ∈ m, ∃ f : String → Int, e.2 = mkSizes f) :
    ∀ e ∈ bumpOuter m key sz q, ∃ f : String → Int, e.2 = mkSizes f := by
  intro e he
  rw [bumpOuter] at he
  obtain ⟨p, hp, rfl⟩ := List.mem_map.mp he
  have hp2 : ∃ f : String → Int, p.2 = mkSizes f := by
    by_cases hk : (List.lookup key m).isSome
    · rw [if_pos hk] at hp
      exact hshape p hp
    · rw [if_neg hk] at hp
      rcases List.mem_append.mp hp with hmem | hmem
      · exact hshape p hmem
      · simp at hmem
        exact ⟨fun _ => 0, by rw [hmem]; exact initSizes_eq⟩
  obtain ⟨f, hf⟩ := hp2
  by_cases h : p.1 = key
  · rw [if_pos h]
    exact ⟨_, by rw [show ((p.1, bumpSizes p.2 sz q) : String × List (String × Int)).2
      = bumpSizes p.2 sz q from rfl, hf, bumpSizes_mkSizes]⟩
  · rw [if_neg h]
    exact ⟨f, hf⟩

theorem bumpOuter_nodup (m : List (String × List (String × Int))) (key sz : String)
    (q : Int) (h : (m.map Prod.fst).Nodup) :
    ((bumpOuter m key sz q).map Prod.fst).Nodup := by
  rw [bumpOuter_keys]
  by_cases hk : (List.lookup key m).isSome
  · rw [if_pos hk]
    exact h
  · rw [if_neg hk, List.map_append, List.nodup_append]
    refine ⟨h, by simp, ?_⟩
    intro a ha hb
    simp at hb
    rw [hb] at ha
    exact hk (lookup_isSome_of_mem_keys key m ha)

theorem pivotColumnSum_update (key sz s : String) (q : Int) :
    ∀ m : List (String × List (String × Int)),
      (m.map Prod.fst).Nodup →
      (∀ e ∈ m, ∃ f : String → Int, e.2 = mkSizes f) →
      s ∈ ORDERED_SIZES → sz ∈ ORDERED_SIZES → key ∈ m.map Prod.fst →
      pivotColumnSum (m.map (fun p => if p.1 = key then (p.1, bumpSizes p.2 sz q) else p)) s
        = pivotColumnSum m s + (if s = sz then q else 0) := by
  intro m
  induction m with
  | nil =>
    intro _ _ _ _ hmem
    simp at hmem
  | cons p rest ih =>
    intro hnodup hshape hs hsz hmem
    obtain ⟨a, v⟩ := p
    rw [List.map_cons]
    by_cases hak : a = key
    · rw [if_pos hak]
      have hnk : key ∉ rest.map Prod.fst := by
        rw [← hak]
        rw [List.map_cons] at hnodup
        exact (List.nodup_cons.mp hnodup).1
      have hrest : rest.map (fun p => if p.1 = key then (p.1, bumpSizes p.2 sz q) else p)
          = rest := by
        have hid : ∀ p ∈ rest,
            (if p.1 = key then ((p.1, bumpSizes p.2 sz q) : String × List (String × Int))
             else p) = p := by
          intro p hp
          rw [if_neg]
          intro hh
          exact hnk (hh ▸ List.mem_map_of_mem Prod.fst hp)
        rw [List.map_congr_left hid]
        exact List.map_id rest
      rw [hrest, pivotColumnSum_cons, pivotColumnSum_cons]
      obtain ⟨f, hf⟩ := hshape (a, v) (by simp)
      rw [show ((a, v) : String × List (String × Int)).2 = v from rfl] at hf
      rw [hf, bumpSizes_mkSizes, lookup_mkSizes _ s hs, lookup_mkSizes f s hs]
      by_cases hssz : s = sz
      · rw [if_pos hssz, if_pos hssz]
        show f s + q + pivotColumnSum rest s = f s + pivotColumnSum rest s + q
        ring
      · rw [if_neg hssz, if_neg hssz]
        show f s + pivotColumnSum rest s = f s + pivotColumnSum rest s + 0
        ring
    · rw [if_neg hak, pivotColumnSum_cons, pivotColumnSum_cons]
      have hmem2 : key ∈ rest.map Prod.fst := by
        rw [List.map_cons] at hmem
        rcases List.mem_cons.mp hmem with hh | hh
        · exact absurd hh.symm hak
        · exact hh
      rw [List.map_cons] at hnodup
      rw [ih (List.nodup_cons.mp hnodup).2
        (fun e he => hshape e (List.mem_cons_of_mem _ he)) hs hsz hmem2]
      ring

theorem not_mem_keys_of_lookup_none {β : Type} (k : String)
    (m : List (String × β)) (h : ¬(List.lookup k m).isSome) : k ∉ m.map Prod.fst :=
  fun hmem => h (lookup_isSome_of_mem_keys k m hmem)

theorem pivotColumnSum_append_init (m : List (String × List (String × Int)))
    (key s : String) (hs : s ∈ ORDERED_SIZES) :
    pivotColumnSum (m ++ [(key, initSizes)]) s = pivotColumnSum m s := by
  rw [pivotColumnSum, pivotColumnSum, List.map_append, List.sum_append]
  rw [show List.map (fun e => (List.lookup s e.2).getD 0) [(key, initSizes)]
    = [(List.lookup s initSizes).getD 0] from rfl]
  rw [initSizes_eq, lookup_mkSizes _ s hs]
  simp

theorem pivotColumnSum_bumpOuter (m : List (String × List (String × Int)))
    (key sz s : String) (q : Int)
    (hnodup : (m.map Prod.fst).Nodup)
    (hshape : ∀ e ∈ m, ∃ f : String → Int, e.2 = mkSizes f)
    (hs : s ∈ ORDERED_SIZES) (hsz : sz ∈ ORDERED_SIZES) :
    pivotColumnSum (bumpOuter m key sz q) s
      = pivotColumnSum m s + (if s = sz then q else 0) := by
  rw [bumpOuter]
  by_cases hk : (List.lookup key m).isSome
  · rw [if_pos hk]
    refine pivotColumnSum_update key sz s q m hnodup hshape hs hsz ?_
    by_contra hmem
    rw [lookup_eq_none_of_not_mem key m hmem] at hk
    exact absurd hk (by simp)
  · rw [if_neg hk]
    have hnodup2 : ((m ++ [(key, initSizes)]).map Prod.fst).Nodup := by
      rw [List.map_append, List.nodup_append]
      refine ⟨hnodup, by simp, ?_⟩
      intro a ha hb
      simp at hb
      rw [hb] at ha
      exact hk (lookup_isSome_of_mem_keys key m ha)
    have hshape2 : ∀ e ∈ m ++ [(key, initSizes)], ∃ f : String → Int, e.2 = mkSizes f := by
      intro e he
      rcases List.mem_append.mp he with hmem | hmem
      · exact hshape e hmem
      · simp at hmem
        exact ⟨fun _ => 0, by rw [hmem]; exact initSizes_eq⟩
    have hmem2 : key ∈ (m ++ [(key, initSizes)]).map Prod.fst := by
      rw [List.map_append]
      simp
    rw [pivotColumnSum_update key sz s q (m ++ [(key, initSizes)]) hnodup2 hshape2 hs hsz hmem2,
      pivotColumnSum_append_init m key s hs]

/-- The initial state of the aggregation loop. -/
def aggInit : AggState :=
  { products := [], colorTotals := [], totals := initSizes, grandTotal := 0 }

/-- The invariant maintained by the aggregation loop. -/
def AggInv (st : AggState) : Prop :=
  (st.products.map Prod.fst).Nodup ∧
  (∀ e ∈ st.products, ∃ f : String → Int, e.2 = mkSizes f) ∧
  (∀ e ∈ st.colorTotals, ∃ f : String → Int, e.2 = mkSizes f) ∧
  (∃ g : String → Int, st.totals = mkSizes g) ∧
  (∀ s ∈ ORDERED_SIZES, (List.lookup s st.totals).getD 0 = pivotColumnSum st.products s) ∧
  st.grandTotal = (ORDERED_SIZES.map (fun s => (List.lookup s st.totals).getD 0)).sum

theorem aggStep_inv (st : AggState) (item : ParsedItem) (hinv : AggInv st) :
    AggInv (aggStep st item) := by
  by_cases h : item.size ∈ ORDERED_SIZES
  · obtain ⟨hnodup, hshape, hcshape, ⟨g, hg⟩, hrel, hgt⟩ := hinv
    have hstep : aggStep st item =
        { products := bumpOuter st.products (item.productName ++ " - " ++ item.color)
            item.size item.quantity
          colorTotals := bumpOuter st.colorTotals (detectColorFamily item.color)
            item.size item.quantity
          totals := bumpSizes st.totals item.size item.quantity
          grandTotal := st.grandTotal + item.quantity } := by
      rw [aggStep, if_pos h]
    rw [hstep]
    have hgl : ∀ s ∈ ORDERED_SIZES, (List.lookup s st.totals).getD 0 = g s := by
      intro s hs
      rw [hg, lookup_mkSizes g s hs]
      rfl
    refine ⟨bumpOuter_nodup _ _ _ _ hnodup, bumpOuter_shape _ _ _ _ hshape,
      bumpOuter_shape _ _ _ _ hcshape,
      ⟨fun s => if s = item.size then g s + item.quantity else g s, by
        show bumpSizes st.totals item.size item.quantity = _
        rw [hg, bumpSizes_mkSizes]⟩,
      ?_, ?_⟩
    · intro s hs
      show (List.lookup s (bumpSizes st.totals item.size item.quantity)).getD 0
        = pivotColumnSum (bumpOuter st.products
            (item.productName ++ " - " ++ item.color) item.size item.quantity) s
      rw [hg, bumpSizes_mkSizes, lookup_mkSizes _ s hs,
        pivotColumnSum_bumpOuter _ _ _ _ _ hnodup hshape hs h, ← hrel s hs, hgl s hs]
      by_cases hssz : s = item.size <;> simp [hssz]
    · show st.grandTotal + item.quantity
        = (ORDERED_SIZES.map (fun s =>
            (List.lookup s (bumpSizes st.totals item.size item.quantity)).getD 0)).sum
      rw [hg, bumpSizes_mkSizes, sum_mkSizes_lookup, sum_bump g item.size h item.quantity]
      congr 1
      rw [hgt]
      exact congrArg List.sum (List.map_congr_left hgl)
  · rw [show aggStep st item = st from by rw [aggStep, if_neg h]]
    exact hinv

theorem aggregate_foldl_inv (items : List ParsedItem) :
    ∀ st : AggState, AggInv st → AggInv (items.foldl aggStep st) := by
  induction items with
  | nil => intro st h; exact h
  | cons i rest ih =>
    intro st h
    rw [List.foldl_cons]
    exact ih _ (aggStep_inv st i h)

theorem aggInv_init : AggInv aggInit := by
  refine ⟨by simp [aggInit], by intro e he; exact absurd he (by simp [aggInit]),
    by intro e he; exact absurd he (by simp [aggInit]),
    ⟨fun _ => 0, initSizes_eq⟩, ?_, ?_⟩
  · intro s hs
    show (List.lookup s initSizes).getD 0 = pivotColumnSum [] s
    rw [initSizes_eq, lookup_mkSizes _ s hs]
    rfl
  · show (0 : Int) = (ORDERED_SIZES.map (fun s => (List.lookup s initSizes).getD 0)).sum
    rw [initSizes_eq, sum_mkSizes_lookup]
    rfl

theorem aggregate_foldl_grandTotal (items : List ParsedItem) :
    ∀ st : AggState, (items.foldl aggStep st).grandTotal
      = st.grandTotal + (items.map
          (fun i => if i.size ∈ ORDERED_SIZES then i.quantity else 0)).sum := by
  induction items with
  | nil => intro st; simp
  | cons i rest ih =>
    intro st
    rw [List.foldl_cons, ih, List.map_cons, List.sum_cons]
    by_cases h : i.size ∈ ORDERED_SIZES
    · rw [show (aggStep st i).grandTotal = st.grandTotal + i.quantity from by
        rw [aggStep, if_pos h], if_pos h]
      ring
    · rw [show (aggStep st i).grandTotal = st.grandTotal from by
        rw [aggStep, if_neg h], if_neg h]
      ring

/-- C1: in every `AggregatedData`, each inner size record (of `products`, of
`colorTotals`, and `totals`) carries all seven canonical sizes as keys; for
every canonical size, `totals[s]` is the column sum of `products[*][s]`;
`grandTotal` is the sum of `totals` over the canonical sizes; and it also
equals the sum of the quantities of exactly the input items whose size is
canonical. -/
theorem aggregateData_invariants (items : List ParsedItem) (orders : List Order) :
    (∀ e ∈ (aggregateData items orders).products, ∀ s ∈ ORDERED_SIZES,
        (List.lookup s e.2).isSome) ∧
    (∀ e ∈ (aggregateData items orders).colorTotals, ∀ s ∈ ORDERED_SIZES,
        (List.lookup s e.2).isSome) ∧
    (∀ s ∈ ORDERED_SIZES, (List.lookup s (aggregateData items orders).totals).isSome) ∧
    (∀ s ∈ ORDERED_SIZES,
      (List.lookup s (aggregateData items orders).totals).getD 0
        = pivotColumnSum (aggregateData items orders).products s) ∧
    ((aggregateData items orders).grandTotal
      = (ORDERED_SIZES.map
          (fun s => (List.lookup s (aggregateData items orders).totals).getD 0)).sum) ∧
    ((aggregateData items orders).grandTotal
      = (items.map (fun i => if i.size ∈ ORDERED_SIZES then i.quantity else 0)).sum) := by
  have hinv := aggregate_foldl_inv items aggInit aggInv_init
  obtain ⟨-, hshape, hcshape, ⟨g, hg⟩, hrel, hgt⟩ := hinv
  have htotals : (aggregateData items orders).totals
      = (items.foldl aggStep aggInit).totals := rfl
  have hprods : (aggregateData items orders).products
      = (items.foldl aggStep aggInit).products := rfl
  have hcols : (aggregateData items orders).colorTotals
      = (items.foldl aggStep aggInit).colorTotals := rfl
  have hgrand : (aggregateData items orders).grandTotal
      = (items.foldl aggStep aggInit).grandTotal := rfl
  refine ⟨?_, ?_, ?_, ?_, ?_, ?_⟩
  · intro e he s hs
    obtain ⟨f, hf⟩ := hshape e (by rw [← hprods]; exact he)
    rw [hf, lookup_mkSizes f s hs]
    rfl
  · intro e he s hs
    obtain ⟨f, hf⟩ := hcshape e (by rw [← hcols]; exact he)
    rw [hf, lookup_mkSizes f s hs]
    rfl
  · intro s hs
    rw [htotals, hg, lookup_mkSizes g s hs]
    rfl
  · intro s hs
    rw [htotals, hprods]
    exact hrel s hs
  · rw [htotals, hgrand]
    exact hgt
  · rw [hgrand, aggregate_foldl_grandTotal items aggInit, show aggInit.grandTotal = 0 from rfl,
      zero_add]

/-- Witness for C1 at a concrete item list. -/
theorem aggregateData_invariants_witness :
    ((List.lookup "LARGE" (aggregateData
        [⟨"0", "Tee", "Navy", "LARGE", 2⟩, ⟨"1", "Tee", "Navy", "XS", 3⟩,
         ⟨"2", "Hat", "Black", "LARGE", 1⟩, ⟨"3", "X", "Y", "One Size", 7⟩] []).totals).getD 0
      = pivotColumnSum (aggregateData
        [⟨"0", "Tee", "Navy", "LARGE", 2⟩, ⟨"1", "Tee", "Navy", "XS", 3⟩,
         ⟨"2", "Hat", "Black", "LARGE", 1⟩, ⟨"3", "X", "Y", "One Size", 7⟩] []).products "LARGE") ∧
    (aggregateData
        [⟨"0", "Tee", "Navy", "LARGE", 2⟩, ⟨"1", "Tee", "Navy", "XS", 3⟩,
         ⟨"2", "Hat", "Black", "LARGE", 1⟩, ⟨"3", "X", "Y", "One Size", 7⟩] []).grandTotal = 6 := by
  constructor
  · exact (aggregateData_invariants
      [⟨"0", "Tee", "Navy", "LARGE", 2⟩, ⟨"1", "Tee", "Navy", "XS", 3⟩,
       ⟨"2", "Hat", "Black", "LARGE", 1⟩, ⟨"3", "X", "Y", "One Size", 7⟩] []).2.2.2.1
      "LARGE" (by decide)
  · rw [(aggregateData_invariants
      [⟨"0", "Tee", "Navy", "LARGE", 2⟩, ⟨"1", "Tee", "Navy", "XS", 3⟩,
       ⟨"2", "Hat", "Black", "LARGE", 1⟩, ⟨"3", "X", "Y", "One Size", 7⟩] []).2.2.2.2.2]
    decide

end XpOnline
